import Mathlib

/-
Verification of the crossword CSP solver in `crossword/generate.py`
(class `CrosswordCreator`).

The functions of the core — `enforce_node_consistency`, `revise`, `ac3`,
`assignment_complete`, `consistent`, `rules_out_values`,
`order_domain_values`, `select_unassigned_variable`, `backtrack`, `solve` —
are embedded below as executable Lean functions over explicit state
(the domain store is passed and returned instead of being mutated in
place).  Words are lists of characters; a Python exception is modelled by
the error side of `Except`.

The grid model (class `Crossword` of `crossword.py`, which only generate.py
consumes) is not part of the source tree; it is modelled from the spec as a
read-only oracle: a set of slots, a vocabulary, and an overlap table for
ordered pairs of distinct crossing slots, with the invariants the spec
states (positive slot lengths, overlap indices inside both slots, symmetric
overlap information, no duplicate slots).
-/

/-- Modelled from the spec (§3 Slot): direction of a slot, horizontal
("across") or vertical ("down"). -/
inductive Direction where
  | across
  | down
deriving DecidableEq

/-- Modelled from the spec (§3 Slot): a maximal run of blank cells; equality
is attribute-wise (starting row `i`, starting column `j`, direction,
length). -/
structure Variable where
  i : Nat
  j : Nat
  direction : Direction
  length : Nat
deriving DecidableEq

/-- A word: Python strings are modelled as lists of characters. -/
abbrev Word := List Char

/-- The domain store: each slot's current list of candidate words
(`self.domains`).  Modelled as a total function; the code only ever reads
it at slots of the crossword. -/
abbrev Domains := Variable → List Word

/-- A partial assignment, a Python dict from `Variable` to word, modelled as
an association list in insertion order with unique keys. -/
abbrev Assignment := List (Variable × Word)

/-- Errors that the Python code can raise. -/
inductive PyErr where
  | attributeError
  | indexError
deriving DecidableEq

/-- Lookup in an overlap table keyed by ordered pairs of slots. -/
def lookupPair : List ((Variable × Variable) × (Nat × Nat)) → (Variable × Variable) → Option (Nat × Nat)
  | [], _ => none
  | e :: rest, k => if e.1 = k then some e.2 else lookupPair rest k

/-- Modelled from the spec (§2, §6 Grid Model): the read-only oracle the
core consults — the slots, the vocabulary, and for every ordered pair of
distinct crossing slots the pair of overlap indices.  The propositional
fields are the invariants the spec states: slot lengths are positive,
overlap indices lie inside both slots, the overlap information is symmetric,
and slots and table keys are duplicate-free. -/
structure Crossword where
  vars : List Variable
  words : List Word
  overlapTable : List ((Variable × Variable) × (Nat × Nat))
  lengthPos : ∀ v ∈ vars, 0 < v.length
  varsNodup : vars.Nodup
  tableVars : ∀ e ∈ overlapTable, e.1.1 ∈ vars ∧ e.1.2 ∈ vars ∧ e.1.1 ≠ e.1.2
  tableBounds : ∀ e ∈ overlapTable, e.2.1 < e.1.1.length ∧ e.2.2 < e.1.2.length
  tableKeysNodup : (overlapTable.map (fun e => e.1)).Nodup
  tableSymm : ∀ e ∈ overlapTable, ((e.1.2, e.1.1), (e.2.2, e.2.1)) ∈ overlapTable

/-- `self.crossword.overlaps[x, y]`: the optional overlap of an ordered pair. -/
def Crossword.overlaps (cw : Crossword) (x y : Variable) : Option (Nat × Nat) :=
  lookupPair cw.overlapTable (x, y)

/-- Modelled from the spec (§6): `neighbors(slot)` — all slots with a
defined overlap against `slot`. -/
def neighbors (cw : Crossword) (v : Variable) : List Variable :=
  cw.vars.filter (fun u => u != v && (cw.overlaps v u).isSome)

/-- `assignment[k] = w` on a Python dict: replace the value in place when the
key is present, otherwise append the new entry. -/
def dictSet : Assignment → Variable → Word → Assignment
  | [], k, w => [(k, w)]
  | p :: rest, k, w => if p.1 = k then (k, w) :: rest else p :: dictSet rest k w

/-- `del assignment[k]` on a Python dict: remove the entry with key `k`. -/
def dictDel : Assignment → Variable → Assignment
  | [], _ => []
  | p :: rest, k => if p.1 = k then rest else p :: dictDel rest k

/-- `assignment[k]` / `assignment.get(k)` on a Python dict. -/
def dictGet : Assignment → Variable → Option Word
  | [], _ => none
  | p :: rest, k => if p.1 = k then some p.2 else dictGet rest k

/-- `assignment.get(i, 0)` used as a truth value: a missing key gives the
default `0`, which is falsy; a present word is truthy iff it is non-empty. -/
def truthyGet (a : Assignment) (v : Variable) : Bool :=
  match dictGet a v with
  | none => false
  | some w => !w.isEmpty

/-- `CrosswordCreator.__init__`: every slot's domain starts as a copy of the
full vocabulary. -/
def initialDomains (cw : Crossword) : Domains := fun _ => cw.words

/-- `CrosswordCreator.enforce_node_consistency`, one slot's update: the words
whose length differs from the slot's length are collected and removed, i.e.
the domain is filtered to the words of the slot's length. -/
def encStep (d : Domains) (v : Variable) : Domains :=
  Function.update d v ((d v).filter (fun w => w.length == v.length))

/-- `CrosswordCreator.enforce_node_consistency`: iterate the update over the
keys of the domain store (the crossword's slots). -/
def enforce_node_consistency (cw : Crossword) (d : Domains) : Domains :=
  cw.vars.foldl encStep d

/-- The domain store as `solve` hands it to the search: seeded from the
vocabulary, then node-consistency pruned. -/
def nodeDomains (cw : Crossword) : Domains :=
  enforce_node_consistency cw (initialDomains cw)

/-- `CrosswordCreator.assignment_complete`: `for i in variables: if not
assignment.get(i, 0): return False` — every slot must have a truthy entry. -/
def assignment_complete (cw : Crossword) (a : Assignment) : Bool :=
  cw.vars.all (fun v => truthyGet a v)

/-- `word[i]` at an index that is in bounds in every reachable call (the
length pass of `consistent` runs first, and the crossword invariants keep
overlap indices inside the slot lengths); the default is irrelevant. -/
def charAtD (w : Word) (i : Nat) : Char := w.getD i '?'

/-- The body of the double loop of `CrosswordCreator.consistent` for an
ordered pair of entries: pairs with equal keys are skipped; for a pair with
an overlap, first `assignment[i][overlap[0]] != assignment[j][overlap[1]]`
returns False, then `assignment[i] == assignment[j]` returns False.  Note
that the duplicate-word test is nested under the overlap test: pairs without
an overlap are never checked for duplicate words. -/
def pairOK (cw : Crossword) (p q : Variable × Word) : Bool :=
  if p.1 = q.1 then true
  else
    match cw.overlaps p.1 q.1 with
    | none => true
    | some (oi, oj) =>
      if charAtD p.2 oi ≠ charAtD q.2 oj then false
      else if p.2 = q.2 then false
      else true

/-- `CrosswordCreator.consistent`: a first pass checks every assigned word's
length against its slot's length, then the double loop checks every ordered
pair of assigned slots. -/
def consistent (cw : Crossword) (a : Assignment) : Bool :=
  a.all (fun p => p.1.length == p.2.length) &&
    a.all (fun p => a.all (fun q => pairOK cw p q))

/-- The inner loop of `CrosswordCreator.revise` for one word of X's domain:
`for word2 in self.domains[y]: if word1[overlap[0]] != word2[overlap[1]]:
self.domains.remove(word1); ...`.  Indexing a too-short word raises
IndexError; on the first pair whose overlap characters differ the code
evaluates `self.domains.remove(word1)` — `self.domains` is the dict of
domains, which has no attribute `remove`, so an AttributeError is raised
and the `revised = True` and `break` lines after it are unreachable. -/
def reviseInner (oi oj : Nat) (w1 : Word) : List Word → Except PyErr Unit
  | [] => Except.ok ()
  | w2 :: rest =>
    match w1.get? oi with
    | none => Except.error PyErr.indexError
    | some c1 =>
      match w2.get? oj with
      | none => Except.error PyErr.indexError
      | some c2 =>
        if c1 ≠ c2 then Except.error PyErr.attributeError
        else reviseInner oi oj w1 rest

/-- The outer loop of `CrosswordCreator.revise`: iterate the inner loop over
X's domain.  Because the only statement that could set `revised` to True
follows the failing attribute access, a normal exit always reports
`revised = False`. -/
def reviseOuter (oi oj : Nat) (ys : List Word) : List Word → Except PyErr Bool
  | [] => Except.ok false
  | w1 :: rest =>
    match reviseInner oi oj w1 ys with
    | Except.error e => Except.error e
    | Except.ok _ => reviseOuter oi oj ys rest

/-- `CrosswordCreator.revise(x, y)`: with no overlap the loops are skipped
and `revised = False` is returned with the domain store untouched; with an
overlap the double loop runs (see `reviseInner`).  The store is returned
unchanged because the removal statement never executes normally. -/
def revise (cw : Crossword) (d : Domains) (x y : Variable) : Except PyErr (Bool × Domains) :=
  match cw.overlaps x y with
  | none => Except.ok (false, d)
  | some (oi, oj) =>
    match reviseOuter oi oj (d y) (d x) with
    | Except.error e => Except.error e
    | Except.ok revised => Except.ok (revised, d)

/-- Python truthiness of the expression `q.empty` in `while not q.empty:`.
The source omits the call parentheses, so the loop guard tests the bound
method object itself, which is always truthy. -/
def qEmptyAttrTruthy : Bool := true

/-- The worklist loop of `CrosswordCreator.ac3`, parametric in the revision
procedure `r` (instantiated with `revise` below).  The guard
`while not q.empty:` is false on entry — `q.empty` is a truthy bound-method
object — so the body (dequeue an arc, revise it, fail on an emptied domain,
re-enqueue the neighbors) never executes and the loop falls through to
`return True`.  The fuel argument bounds the iteration count; since the
guard fails immediately, any fuel yields the same result. -/
def ac3LoopWith (cw : Crossword)
    (r : Domains → Variable → Variable → Except PyErr (Bool × Domains)) :
    Nat → List (Variable × Variable) → Domains → Except PyErr (Bool × Domains)
  | 0, _, d => Except.ok (true, d)
  | Nat.succ fuel, q, d =>
    if qEmptyAttrTruthy = false then
      match q with
      | [] => Except.ok (true, d)
      | (x, y) :: rest =>
        match r d x y with
        | Except.error e => Except.error e
        | Except.ok (revised, d2) =>
          if revised then
            if (d2 x).length = 0 then Except.ok (false, d2)
            else
              ac3LoopWith cw r fuel
                (rest ++ ((neighbors cw x).filter (fun z => z != y)).map (fun z => (z, x))) d2
          else ac3LoopWith cw r fuel rest d2
    else Except.ok (true, d)

/-- The initial worklist of `CrosswordCreator.ac3`: the supplied arcs when
given, otherwise all ordered pairs of distinct slots. -/
def initialQueue (cw : Crossword) : Option (List (Variable × Variable)) → List (Variable × Variable)
  | some arcs => arcs
  | none => cw.vars.flatMap (fun i => (cw.vars.filter (fun j => j != i)).map (fun j => (i, j)))

/-- `CrosswordCreator.ac3(arcs)`: build the worklist, run the loop, return
True unless a revision empties a domain (the loop, however, never runs). -/
def ac3 (cw : Crossword) (arcs : Option (List (Variable × Variable))) (d : Domains) :
    Except PyErr (Bool × Domains) :=
  ac3LoopWith cw (revise cw) ((initialQueue cw arcs).length + 1) (initialQueue cw arcs) d

/-- Stable insertion into a list sorted ascending by `key`: the new element
goes before the first element with a strictly larger key and after the
elements with equal keys that are already placed. -/
def insertByKey (key : α → Nat) (x : α) : List α → List α
  | [] => [x]
  | y :: ys => if key x ≤ key y then x :: y :: ys else y :: insertByKey key x ys

/-- Stable ascending sort by `key`, modelling Python's stable `list.sort`. -/
def sortByKey (key : α → Nat) : List α → List α
  | [] => []
  | x :: xs => insertByKey key x (sortByKey key xs)

/-- Python's `max(xs, key=...)` starting from a first element `x`: the
running maximum is replaced only on a strictly larger key, so the first
element with the maximal key is returned. -/
def pyMaxByKey (key : α → Nat) (x : α) : List α → α
  | [] => x
  | y :: ys => if key x < key y then pyMaxByKey key y ys else pyMaxByKey key x ys

/-- The rule-out counter of `CrosswordCreator.rules_out_values(var, word,
neighbors, assignment)`: over every unassigned neighbor `i` and every word
`j` of its domain, count `j` when it equals `word` (skipping the overlap
test) or when the overlap characters `word[overlap[1]]` and `j[overlap[0]]`
differ (`overlap = overlaps[i, var]`). -/
def rules_out_values (cw : Crossword) (d : Domains) (var : Variable) (word : Word)
    (nbrs : List Variable) (a : Assignment) : Nat :=
  nbrs.foldl
    (fun count i =>
      if truthyGet a i then count
      else
        (d i).foldl
          (fun c j =>
            if j = word then c + 1
            else
              match cw.overlaps i var with
              | none => c
              | some (oi, oj) => if charAtD word oj ≠ charAtD j oi then c + 1 else c)
          count)
    0

/-- `CrosswordCreator.order_domain_values(var, assignment)`: pair every word
of var's domain with its rule-out count, sort ascending by the count
(stable), and keep the words. -/
def order_domain_values (cw : Crossword) (d : Domains) (var : Variable) (a : Assignment) :
    List Word :=
  (sortByKey (fun p => p.2)
      ((d var).map (fun w => (w, rules_out_values cw d var w (neighbors cw var) a)))).map
    (fun p => p.1)

/-- The triple list of `CrosswordCreator.select_unassigned_variable`: each
unassigned slot with its degree (`len(neighbors)`) and its domain size. -/
def unassignedTriples (cw : Crossword) (d : Domains) (a : Assignment) :
    List (Variable × Nat × Nat) :=
  (cw.vars.filter (fun v => !truthyGet a v)).map
    (fun v => (v, (neighbors cw v).length, (d v).length))

/-- `CrosswordCreator.select_unassigned_variable(assignment)`: sort the
unassigned slots ascending by domain size, keep the prefix tied with the
first, and take the first of maximal degree (Python's `max`).  On an empty
unassigned list Python's `max([])` raises ValueError; that branch is
unreachable from `backtrack`, which calls this only on incomplete
assignments, and is modelled as `none`. -/
def selectFrom : List (Variable × Nat × Nat) → Option Variable
  | [] => none
  | t :: ts =>
    match List.takeWhile (fun x => x.2.2 == t.2.2) (t :: ts) with
    | [] => none
    | u :: us => some (pyMaxByKey (fun x => x.2.1) u us).1

/-- See `selectFrom` above for the tie-break on the sorted triples. -/
def select_unassigned_variable (cw : Crossword) (d : Domains) (a : Assignment) :
    Option Variable :=
  selectFrom (sortByKey (fun t => t.2.2) (unassignedTriples cw d a))

/-- The value loop of `CrosswordCreator.backtrack`, parametric in the
recursive call `bt` (the backtracking search at the remaining depth): try
each candidate word in order; tentatively assign it; when the extended
assignment is consistent, recurse and propagate a non-None result; on
failure undo the tentative assignment (`del assignment[start]`) and try the
next word. -/
def tryWords (cw : Crossword) (bt : Assignment → Option Assignment) (start : Variable) :
    Assignment → List Word → Option Assignment
  | _, [] => none
  | a, w :: rest =>
    let a2 := dictSet a start w
    if consistent cw a2 then
      match bt a2 with
      | some result => some result
      | none => tryWords cw bt start (dictDel a2 start) rest
    else tryWords cw bt start (dictDel a2 start) rest

/-- `CrosswordCreator.backtrack(assignment)`: return the assignment when it
is complete; otherwise pick a slot and try its ordered domain values.  The
fuel bounds the recursion depth; `solve` passes one more than the number of
slots, which the search never exhausts because every recursive call adds a
truthy entry for a previously non-truthy slot. -/
def backtrack (cw : Crossword) (d : Domains) : Nat → Assignment → Option Assignment
  | 0, _ => none
  | Nat.succ fuel, a =>
    if assignment_complete cw a then some a
    else
      match select_unassigned_variable cw d a with
      | none => none
      | some start =>
        tryWords cw (fun a2 => backtrack cw d fuel a2) start a
          (order_domain_values cw d start a)

/-- `CrosswordCreator.solve()`: enforce node consistency, run `ac3()` as a
bare statement — its boolean result is discarded (an exception would
propagate, modelled by the error branch) — then start the backtracking
search from the empty assignment. -/
def solve (cw : Crossword) : Except PyErr (Option Assignment) :=
  match ac3 cw none (nodeDomains cw) with
  | Except.error e => Except.error e
  | Except.ok (_, d2) => Except.ok (backtrack cw d2 (cw.vars.length + 1) [])

/-- Spec §3 ("Assignment ... Consistent when"): the section-3 consistency
predicate, written from the spec's words for comparison with the code's
`consistent` — (a) each assigned word's length matches its slot's length,
(b) overlapping characters agree for every pair with an overlap, (c) no two
distinct assigned slots hold the identical word (global uniqueness). -/
def SpecConsistent (cw : Crossword) (a : Assignment) : Prop :=
  (∀ p ∈ a, p.2.length = p.1.length) ∧
  (∀ p ∈ a, ∀ q ∈ a, ∀ oi oj, cw.overlaps p.1 q.1 = some (oi, oj) →
    charAtD p.2 oi = charAtD q.2 oj) ∧
  (∀ p ∈ a, ∀ q ∈ a, p.1 ≠ q.1 → p.2 ≠ q.2)

/-- Spec §8 (Exhaustiveness): a complete assignment over the given slots and
vocabulary that is consistent per the §3 definition. -/
def SpecSolution (cw : Crossword) (a : Assignment) : Prop :=
  (∀ v ∈ cw.vars, ∃ w, dictGet a v = some w ∧ w ∈ cw.words) ∧ SpecConsistent cw a

/-- A complete assignment over the given slots and vocabulary that the
code's own `consistent` predicate accepts (uniqueness only among
overlapping pairs). -/
def CodeSolution (cw : Crossword) (a : Assignment) : Prop :=
  (∀ v ∈ cw.vars, ∃ w, dictGet a v = some w ∧ w ∈ cw.words) ∧ consistent cw a = true

/-- The invariant the search maintains: every entry of the assignment maps a
slot of the crossword to a word of that slot's current domain. -/
def GoodAssign (cw : Crossword) (d : Domains) (a : Assignment) : Prop :=
  ∀ p ∈ a, p.1 ∈ cw.vars ∧ p.2 ∈ d p.1

/-- The word "cat". -/
def catW : Word := ['c', 'a', 't']

/-- The word "dog". -/
def dogW : Word := ['d', 'o', 'g']

/-- The word "ab". -/
def abW : Word := ['a', 'b']

/-- The word "cd". -/
def cdW : Word := ['c', 'd']

/-- The word "abc". -/
def abcW : Word := ['a', 'b', 'c']

/-- The word "xyz". -/
def xyzW : Word := ['x', 'y', 'z']

/-- A single across slot of length 3 at the origin. -/
def X1 : Variable := ⟨0, 0, Direction.across, 3⟩

/-- A one-slot crossword with vocabulary {cat, dog} (spec §8 scenario). -/
def cw1 : Crossword :=
  ⟨[X1], [catW, dogW], [], by decide, by decide, by decide, by decide, by decide, by decide⟩

/-- An across slot of length 3 in row 0. -/
def A1 : Variable := ⟨0, 0, Direction.across, 3⟩

/-- An across slot of length 3 in row 2; it does not cross `A1`. -/
def B1 : Variable := ⟨2, 0, Direction.across, 3⟩

/-- Two parallel (non-crossing) slots of length 3 with a one-word
vocabulary {dog}. -/
def cw1c : Crossword :=
  ⟨[A1, B1], [dogW], [], by decide, by decide, by decide, by decide, by decide, by decide⟩

/-- The assignment `solve` returns on `cw1c`: both slots carry "dog". -/
def rC1 : Assignment := [(A1, dogW), (B1, dogW)]

/-- An across slot of length 3 at the origin. -/
def X2 : Variable := ⟨0, 0, Direction.across, 3⟩

/-- A down slot of length 3 at the origin, crossing `X2` at (0, 0). -/
def Y2 : Variable := ⟨0, 0, Direction.down, 3⟩

/-- Two crossing slots of length 3 sharing their first characters. -/
def cw2w : Crossword :=
  ⟨[X2, Y2], [catW], [((X2, Y2), (0, 0)), ((Y2, X2), (0, 0))],
    by decide, by decide, by decide, by decide, by decide, by decide⟩

/-- A one-entry assignment on `cw2w`. -/
def a2w : Assignment := [(X2, catW)]

/-- An across slot of length 3 in row 0. -/
def X2c : Variable := ⟨0, 0, Direction.across, 3⟩

/-- An across slot of length 3 in row 4; no overlap with `X2c`. -/
def Y2c : Variable := ⟨4, 0, Direction.across, 3⟩

/-- Two non-crossing slots of length 3 with vocabulary {cat}. -/
def cw2c : Crossword :=
  ⟨[X2c, Y2c], [catW], [], by decide, by decide, by decide, by decide, by decide, by decide⟩

/-- Both non-crossing slots of `cw2c` assigned the identical word "cat". -/
def a2c : Assignment := [(X2c, catW), (Y2c, catW)]

/-- An across slot of length 2 at the origin. -/
def X3 : Variable := ⟨0, 0, Direction.across, 2⟩

/-- A down slot of length 2 at the origin, crossing `X3` at (0, 0). -/
def Y3 : Variable := ⟨0, 0, Direction.down, 2⟩

/-- An across slot of length 2 in row 5, crossing nothing. -/
def Z3 : Variable := ⟨5, 0, Direction.across, 2⟩

/-- Crossing slots `X3`, `Y3` plus the isolated `Z3`. -/
def cw3 : Crossword :=
  ⟨[X3, Y3, Z3], [abW, cdW], [((X3, Y3), (0, 0)), ((Y3, X3), (0, 0))],
    by decide, by decide, by decide, by decide, by decide, by decide⟩

/-- Domains for `cw3`: X3 holds "ab" only, Y3 holds "cd" only — "ab" has no
support in Y3's domain at the (0,0) overlap. -/
def d3 : Domains := fun v => if v = X3 then [abW] else if v = Y3 then [cdW] else []

/-- A down slot of length 2 starting at (1, 1). -/
def X4 : Variable := ⟨1, 1, Direction.down, 2⟩

/-- An across slot of length 2 starting at (1, 0); it meets `X4` at cell
(1, 1): index 0 of `X4`, index 1 of `Y4`. -/
def Y4 : Variable := ⟨1, 0, Direction.across, 2⟩

/-- Crossing slots with overlap (0, 1) and vocabulary {ab, cd}: no word of
the vocabulary ends in 'a' or 'c', so neither word of X4's domain has
support in Y4's domain. -/
def cw4 : Crossword :=
  ⟨[X4, Y4], [abW, cdW], [((X4, Y4), (0, 1)), ((Y4, X4), (1, 0))],
    by decide, by decide, by decide, by decide, by decide, by decide⟩

/-- The node-consistent domains of `cw4` (both slots keep the full
vocabulary, every word having length 2). -/
def d4 : Domains := nodeDomains cw4

/-- An across slot of length 3 in row 0. -/
def X6 : Variable := ⟨0, 0, Direction.across, 3⟩

/-- An across slot of length 3 in row 3; no overlap with `X6`. -/
def Y6 : Variable := ⟨3, 0, Direction.across, 3⟩

/-- The spec §8 duplicate-word scenario: a single vocabulary word and two
equal-length slots (here non-crossing). -/
def cw6 : Crossword :=
  ⟨[X6, Y6], [catW], [], by decide, by decide, by decide, by decide, by decide, by decide⟩

/-- A single across slot of length 3. -/
def X6w : Variable := ⟨0, 0, Direction.across, 3⟩

/-- A one-slot crossword whose only vocabulary word is too short for the
slot: no code-consistent complete assignment exists. -/
def cw6w : Crossword :=
  ⟨[X6w], [abW], [], by decide, by decide, by decide, by decide, by decide, by decide⟩

/-- A down slot of length 2 starting at (2, 2). -/
def X7 : Variable := ⟨2, 2, Direction.down, 2⟩

/-- An across slot of length 2 starting at (2, 1); it meets `X7` at cell
(2, 2): index 0 of `X7`, index 1 of `Y7`. -/
def Y7 : Variable := ⟨2, 1, Direction.across, 2⟩

/-- Crossing slots with overlap (0, 1) and vocabulary {ab, cd}: every word
of X7's domain lacks support in Y7's domain, so an arc-consistency pass
must empty X7's domain and report failure. -/
def cw7 : Crossword :=
  ⟨[X7, Y7], [abW, cdW], [((X7, Y7), (0, 1)), ((Y7, X7), (1, 0))],
    by decide, by decide, by decide, by decide, by decide, by decide⟩

/-- The node-consistent domains of `cw7`. -/
def d7 : Domains := nodeDomains cw7

/-- An across slot of length 3 at the origin. -/
def X8 : Variable := ⟨0, 0, Direction.across, 3⟩

/-- A down slot of length 3 at the origin, crossing `X8` at (0, 0). -/
def Y8 : Variable := ⟨0, 0, Direction.down, 3⟩

/-- Crossing slots of length 3 with overlap (0, 0). -/
def cw8 : Crossword :=
  ⟨[X8, Y8], [abcW, xyzW], [((X8, Y8), (0, 0)), ((Y8, X8), (0, 0))],
    by decide, by decide, by decide, by decide, by decide, by decide⟩

/-- Domains for `cw8`: "abc" in X8's domain lacks support in Y8's domain
(every word there starts with 'x'). -/
def d8 : Domains := fun v => if v = X8 then [abcW] else if v = Y8 then [xyzW] else []

/-- A single across slot of length 3. -/
def X9 : Variable := ⟨0, 0, Direction.across, 3⟩

/-- A one-slot crossword whose vocabulary mixes word lengths. -/
def cw9 : Crossword :=
  ⟨[X9], [catW, abW], [], by decide, by decide, by decide, by decide, by decide, by decide⟩

/-- The unpruned domains of `cw9`. -/
def d9 : Domains := initialDomains cw9

/-- A single across slot of length 3. -/
def X10 : Variable := ⟨0, 0, Direction.across, 3⟩

/-- A one-slot crossword used for the completeness check. -/
def cw10 : Crossword :=
  ⟨[X10], [catW], [], by decide, by decide, by decide, by decide, by decide, by decide⟩

/-- An assignment giving the only slot of `cw10` an entry holding the empty
string. -/
def a10 : Assignment := [(X10, [])]

theorem ac3LoopWith_eq (cw : Crossword)
    (r : Domains → Variable → Variable → Except PyErr (Bool × Domains))
    (fuel : Nat) (q : List (Variable × Variable)) (d : Domains) :
    ac3LoopWith cw r fuel q d = Except.ok (true, d) := by
  cases fuel with
  | zero => rfl
  | succ n => simp [ac3LoopWith, qEmptyAttrTruthy]

theorem ac3_eq (cw : Crossword) (arcs : Option (List (Variable × Variable))) (d : Domains) :
    ac3 cw arcs d = Except.ok (true, d) := by
  unfold ac3
  exact ac3LoopWith_eq cw (revise cw) _ _ d

theorem solve_eq (cw : Crossword) :
    solve cw = Except.ok (backtrack cw (nodeDomains cw) (cw.vars.length + 1) []) := by
  unfold solve
  rw [ac3_eq]

theorem mem_dictSet (a : Assignment) (k : Variable) (w : Word) :
    ∀ p ∈ dictSet a k w, p = (k, w) ∨ p ∈ a := by
  induction a with
  | nil =>
    intro p hp
    simp [dictSet] at hp
    left
    exact hp
  | cons q rest ih =>
    intro p hp
    by_cases hq : q.1 = k
    · simp [dictSet, hq] at hp
      rcases hp with h | h
      · left
        simp [h]
      · right
        exact List.mem_cons_of_mem _ h
    · simp [dictSet, hq] at hp
      rcases hp with h | h
      · right
        simp [h]
      · rcases ih p h with h1 | h1
        · left
          exact h1
        · right
          exact List.mem_cons_of_mem _ h1

theorem mem_dictDel (a : Assignment) (k : Variable) :
    ∀ p ∈ dictDel a k, p ∈ a := by
  induction a with
  | nil =>
    intro p hp
    simp [dictDel] at hp
  | cons q rest ih =>
    intro p hp
    by_cases hq : q.1 = k
    · simp [dictDel, hq] at hp
      exact List.mem_cons_of_mem _ hp
    · simp [dictDel, hq] at hp
      rcases hp with h | h
      · simp [h]
      · exact List.mem_cons_of_mem _ (ih p h)

theorem dictGet_mem (a : Assignment) (k : Variable) (w : Word) :
    dictGet a k = some w → (k, w) ∈ a := by
  induction a with
  | nil => intro h; simp [dictGet] at h
  | cons q rest ih =>
    intro h
    by_cases hq : q.1 = k
    · simp [dictGet, hq] at h
      have hkw : (k, w) = q := by rw [← hq, ← h]
      rw [hkw]
      exact List.mem_cons_self _ _
    · simp [dictGet, hq] at h
      exact List.mem_cons_of_mem _ (ih h)

theorem truthyGet_true_iff (a : Assignment) (v : Variable) :
    truthyGet a v = true ↔ ∃ w, dictGet a v = some w ∧ w ≠ [] := by
  unfold truthyGet
  cases h : dictGet a v with
  | none => simp
  | some w =>
    simp only [Bool.not_eq_true']
    constructor
    · intro hw
      exact ⟨w, rfl, by simpa [List.isEmpty_iff] using hw⟩
    · rintro ⟨w', hw', hne⟩
      have hww : w = w' := by simpa using hw'
      subst hww
      simpa [List.isEmpty_iff] using hne

theorem mem_insertByKey {α : Type} (key : α → Nat) (x : α) (l : List α) :
    ∀ y ∈ insertByKey key x l, y = x ∨ y ∈ l := by
  induction l with
  | nil => intro y hy; simp [insertByKey] at hy; left; exact hy
  | cons z zs ih =>
    intro y hy
    by_cases hk : key x ≤ key z
    · simp [insertByKey, hk] at hy
      rcases hy with h | h | h
      · left; exact h
      · right; simp [h]
      · right; exact List.mem_cons_of_mem _ h
    · simp [insertByKey, hk] at hy
      rcases hy with h | h
      · right; simp [h]
      · rcases ih y h with h1 | h1
        · left; exact h1
        · right; exact List.mem_cons_of_mem _ h1

theorem mem_sortByKey {α : Type} (key : α → Nat) (l : List α) :
    ∀ y ∈ sortByKey key l, y ∈ l := by
  induction l with
  | nil => intro y hy; simp [sortByKey] at hy
  | cons z zs ih =>
    intro y hy
    rcases mem_insertByKey key z (sortByKey key zs) y hy with h | h
    · simp [h]
    · exact List.mem_cons_of_mem _ (ih y h)

theorem pyMaxByKey_mem {α : Type} (key : α → Nat) :
    ∀ (l : List α) (x : α), pyMaxByKey key x l = x ∨ pyMaxByKey key x l ∈ l := by
  intro l
  induction l with
  | nil => intro x; left; rfl
  | cons y ys ih =>
    intro x
    by_cases hk : key x < key y
    · simp only [pyMaxByKey, hk, if_pos]
      rcases ih y with h | h
      · right; simp [h]
      · right; exact List.mem_cons_of_mem _ h
    · simp only [pyMaxByKey, hk, if_neg, if_false]
      rcases ih x with h | h
      · left; exact h
      · right; exact List.mem_cons_of_mem _ h

theorem mem_takeWhileP {α : Type} (p : α → Bool) :
    ∀ (l : List α) (x : α), x ∈ List.takeWhile p l → x ∈ l := by
  intro l
  induction l with
  | nil => intro x hx; simp [List.takeWhile] at hx
  | cons y ys ih =>
    intro x hx
    by_cases hp : p y
    · rw [List.takeWhile_cons, if_pos hp] at hx
      rcases List.mem_cons.mp hx with h | h
      · simp [h]
      · exact List.mem_cons_of_mem _ (ih x h)
    · rw [List.takeWhile_cons, if_neg hp] at hx
      simp at hx

theorem triples_fst_mem (cw : Crossword) (d : Domains) (a : Assignment) :
    ∀ t ∈ unassignedTriples cw d a, t.1 ∈ cw.vars := by
  intro t ht
  unfold unassignedTriples at ht
  rcases List.mem_map.mp ht with ⟨v, hv, hvt⟩
  rw [← hvt]
  exact List.mem_of_mem_filter hv

theorem select_mem (cw : Crossword) (d : Domains) (a : Assignment) (v : Variable) :
    select_unassigned_variable cw d a = some v → v ∈ cw.vars := by
  intro h
  unfold select_unassigned_variable at h
  cases hs : sortByKey (fun t => t.2.2) (unassignedTriples cw d a) with
  | nil => rw [hs] at h; simp [selectFrom] at h
  | cons t ts =>
    rw [hs] at h
    simp only [selectFrom] at h
    cases htk : List.takeWhile (fun x => x.2.2 == t.2.2) (t :: ts) with
    | nil => rw [htk] at h; simp at h
    | cons u us =>
      rw [htk] at h
      simp only [Option.some.injEq] at h
      have hmem : pyMaxByKey (fun x => x.2.1) u us ∈ u :: us := by
        rcases pyMaxByKey_mem (fun x => x.2.1) us u with h1 | h1
        · rw [h1]; exact List.mem_cons_self _ _
        · exact List.mem_cons_of_mem _ h1
      have hsorted : pyMaxByKey (fun x => x.2.1) u us ∈ t :: ts := by
        have := htk ▸ hmem
        exact mem_takeWhileP _ _ _ this
      have htrip : pyMaxByKey (fun x => x.2.1) u us ∈ unassignedTriples cw d a := by
        have := hs ▸ hsorted
        exact mem_sortByKey _ _ _ this
      rw [← h]
      exact triples_fst_mem cw d a _ htrip

theorem mem_order_domain_values (cw : Crossword) (d : Domains) (var : Variable)
    (a : Assignment) : ∀ w ∈ order_domain_values cw d var a, w ∈ d var := by
  intro w hw
  unfold order_domain_values at hw
  rcases List.mem_map.mp hw with ⟨p, hp, hpw⟩
  have hp2 := mem_sortByKey _ _ _ hp
  rcases List.mem_map.mp hp2 with ⟨w', hw', hww⟩
  rw [← hpw, ← hww]
  exact hw'

theorem consistent_nil (cw : Crossword) : consistent cw [] = true := rfl

theorem consistent_len (cw : Crossword) (a : Assignment) :
    consistent cw a = true → ∀ p ∈ a, p.1.length = p.2.length := by
  intro h p hp
  unfold consistent at h
  have h1 := (Bool.and_eq_true _ _).mp h |>.1
  have := List.all_eq_true.mp h1 p hp
  simpa using this

theorem consistent_pairs (cw : Crossword) (a : Assignment) :
    consistent cw a = true → ∀ p ∈ a, ∀ q ∈ a, pairOK cw p q = true := by
  intro h p hp q hq
  unfold consistent at h
  have h2 := (Bool.and_eq_true _ _).mp h |>.2
  exact List.all_eq_true.mp (List.all_eq_true.mp h2 p hp) q hq

theorem filter_idem {α : Type} (p : α → Bool) (l : List α) :
    (l.filter p).filter p = l.filter p := by
  apply List.filter_eq_self.mpr
  intro x hx
  exact List.of_mem_filter hx

theorem enc_foldl_eval (l : List Variable) :
    ∀ (d : Domains) (v : Variable),
      (l.foldl encStep d) v =
        if v ∈ l then (d v).filter (fun w => w.length == v.length) else d v := by
  induction l with
  | nil => intro d v; simp
  | cons u rest ih =>
    intro d v
    simp only [List.foldl_cons]
    rw [ih (encStep d u) v]
    by_cases hvr : v ∈ rest
    · by_cases hvu : v = u
      · subst hvu
        simp [hvr, encStep, Function.update_apply, filter_idem]
      · simp [hvr, encStep, Function.update_apply, hvu, List.mem_cons]
    · by_cases hvu : v = u
      · subst hvu
        simp [hvr, encStep, Function.update_apply]
      · simp [hvr, encStep, Function.update_apply, hvu, List.mem_cons]

theorem enc_eval (cw : Crossword) (d : Domains) (v : Variable) (hv : v ∈ cw.vars) :
    enforce_node_consistency cw d v = (d v).filter (fun w => w.length == v.length) := by
  unfold enforce_node_consistency
  rw [enc_foldl_eval cw.vars d v, if_pos hv]

theorem nodeDomains_subset (cw : Crossword) (v : Variable) :
    ∀ w ∈ nodeDomains cw v, w ∈ cw.words := by
  intro w hw
  unfold nodeDomains enforce_node_consistency at hw
  rw [enc_foldl_eval cw.vars (initialDomains cw) v] at hw
  by_cases hv : v ∈ cw.vars
  · rw [if_pos hv] at hw
    exact List.mem_of_mem_filter hw
  · rw [if_neg hv] at hw
    exact hw

theorem tryWords_sound (cw : Crossword) (d : Domains)
    (bt : Assignment → Option Assignment)
    (hbt : ∀ a r, GoodAssign cw d a → consistent cw a = true → bt a = some r →
      assignment_complete cw r = true ∧ consistent cw r = true ∧ GoodAssign cw d r)
    (start : Variable) (hstart : start ∈ cw.vars) :
    ∀ ws a r, (∀ w ∈ ws, w ∈ d start) → GoodAssign cw d a →
      tryWords cw bt start a ws = some r →
      assignment_complete cw r = true ∧ consistent cw r = true ∧ GoodAssign cw d r := by
  intro ws
  induction ws with
  | nil =>
    intro a r _ _ h
    simp [tryWords] at h
  | cons w rest ih =>
    intro a r hws hg htw
    simp only [tryWords] at htw
    have hg2 : GoodAssign cw d (dictSet a start w) := by
      intro p hp
      rcases mem_dictSet a start w p hp with h | h
      · rw [h]
        exact ⟨hstart, hws w (List.mem_cons_self _ _)⟩
      · exact hg p h
    have hgdel : GoodAssign cw d (dictDel (dictSet a start w) start) :=
      fun p hp => hg2 p (mem_dictDel _ _ p hp)
    have hrest : ∀ w' ∈ rest, w' ∈ d start :=
      fun w' h => hws w' (List.mem_cons_of_mem _ h)
    by_cases hcons : consistent cw (dictSet a start w) = true
    · rw [if_pos hcons] at htw
      cases hbres : bt (dictSet a start w) with
      | some r2 =>
        rw [hbres] at htw
        simp at htw
        rw [← htw]
        exact hbt _ _ hg2 hcons hbres
      | none =>
        rw [hbres] at htw
        exact ih _ r hrest hgdel htw
    · rw [if_neg hcons] at htw
      exact ih _ r hrest hgdel htw

theorem backtrack_sound (cw : Crossword) (d : Domains) :
    ∀ fuel a r, GoodAssign cw d a → consistent cw a = true →
      backtrack cw d fuel a = some r →
      assignment_complete cw r = true ∧ consistent cw r = true ∧ GoodAssign cw d r := by
  intro fuel
  induction fuel with
  | zero =>
    intro a r _ _ h
    simp [backtrack] at h
  | succ n ih =>
    intro a r hg hc hb
    simp only [backtrack] at hb
    by_cases hcomp : assignment_complete cw a = true
    · rw [if_pos hcomp] at hb
      simp at hb
      rw [← hb]
      exact ⟨hcomp, hc, hg⟩
    · rw [if_neg hcomp] at hb
      cases hsel : select_unassigned_variable cw d a with
      | none => rw [hsel] at hb; simp at hb
      | some start =>
        rw [hsel] at hb
        exact tryWords_sound cw d (fun a2 => backtrack cw d n a2)
          (fun a2 r2 hg2 hc2 hb2 => ih a2 r2 hg2 hc2 hb2)
          start (select_mem cw d a start hsel)
          (order_domain_values cw d start a) a r
          (mem_order_domain_values cw d start a) hg hb

theorem solve_sound_full (cw : Crossword) (r : Assignment) :
    solve cw = Except.ok (some r) →
      assignment_complete cw r = true ∧ consistent cw r = true ∧
        GoodAssign cw (nodeDomains cw) r := by
  intro h
  rw [solve_eq cw] at h
  simp only [Except.ok.injEq] at h
  exact backtrack_sound cw (nodeDomains cw) (cw.vars.length + 1) [] r
    (fun p hp => absurd hp (List.not_mem_nil p)) (consistent_nil cw) h

theorem pairOK_iff (cw : Crossword) (p q : Variable × Word) :
    pairOK cw p q = true ↔
      (p.1 ≠ q.1 → ∀ oi oj, cw.overlaps p.1 q.1 = some (oi, oj) →
        charAtD p.2 oi = charAtD q.2 oj ∧ p.2 ≠ q.2) := by
  unfold pairOK
  by_cases h1 : p.1 = q.1
  · simp [h1]
  · rw [if_neg h1]
    cases ho : cw.overlaps p.1 q.1 with
    | none => simp
    | some pr =>
      obtain ⟨oi, oj⟩ := pr
      by_cases h2 : charAtD p.2 oi = charAtD q.2 oj
      · by_cases h3 : p.2 = q.2
        · simp [h2, h3, h1]
        · simp [h2, h3, h1]
      · simp [h2, h1]

theorem consistent_iff (cw : Crossword) (a : Assignment) :
    consistent cw a = true ↔
      ((∀ p ∈ a, p.1.length = p.2.length) ∧
       ∀ p ∈ a, ∀ q ∈ a, p.1 ≠ q.1 →
         ∀ oi oj, cw.overlaps p.1 q.1 = some (oi, oj) →
           charAtD p.2 oi = charAtD q.2 oj ∧ p.2 ≠ q.2) := by
  unfold consistent
  simp only [Bool.and_eq_true, List.all_eq_true]
  constructor
  · rintro ⟨h1, h2⟩
    refine ⟨fun p hp => by simpa using h1 p hp, ?_⟩
    intro p hp q hq
    exact (pairOK_iff cw p q).mp (h2 p hp q hq)
  · rintro ⟨h1, h2⟩
    refine ⟨fun p hp => by simpa using h1 p hp, ?_⟩
    intro p hp q hq
    exact (pairOK_iff cw p q).mpr (h2 p hp q hq)

/-- C1 counterexample: on two non-crossing equal-length slots with the
one-word vocabulary {dog}, `solve` returns an assignment (not the
no-solution value) that gives the identical word to two distinct slots —
it is not consistent per the §3 definition, whose clause (c) forbids
duplicate words globally. -/
theorem C1_counterexample :
    solve cw1c = Except.ok (some rC1) ∧ A1 ≠ B1 ∧ ¬ SpecConsistent cw1c rC1 := by
  refine ⟨rfl, by decide, ?_⟩
  intro h
  exact (h.2.2 (A1, dogW) (by decide) (B1, dogW) (by decide) (by decide)) rfl

/-- C1 (amended): if `solve` returns a result other than None, the returned
assignment is complete (every slot has a truthy entry) and is accepted by
the code's `consistent` — lengths match, overlapping characters agree, and
no two distinct OVERLAPPING slots hold the identical word.  Uniqueness
among non-overlapping slots is not guaranteed. -/
theorem C1_solve_sound (cw : Crossword) (r : Assignment)
    (h : solve cw = Except.ok (some r)) :
    assignment_complete cw r = true ∧ consistent cw r = true :=
  ⟨(solve_sound_full cw r h).1, (solve_sound_full cw r h).2.1⟩

/-- Witness for C1: on the one-slot crossword `cw1`, `solve` returns
{X1 ↦ "cat"}, and the returned assignment is complete and consistent. -/
theorem C1_solve_sound_witness :
    solve cw1 = Except.ok (some [(X1, catW)]) ∧
      (assignment_complete cw1 [(X1, catW)] = true ∧
        consistent cw1 [(X1, catW)] = true) :=
  ⟨rfl, C1_solve_sound cw1 [(X1, catW)] rfl⟩

/-- C2 counterexample: `consistent` accepts an assignment in which the two
distinct non-overlapping slots of `cw2c` hold the identical word "cat" —
clause (c) of the claim (global pairwise word-uniqueness) is violated, so
`consistent` is not the claimed if-and-only-if. -/
theorem C2_counterexample :
    consistent cw2c a2c = true ∧ (X2c, catW) ∈ a2c ∧ (Y2c, catW) ∈ a2c ∧
      X2c ≠ Y2c := by decide

/-- C2 (amended): for every assignment keyed by slots of the crossword
(without duplicate keys), `consistent` returns True iff (a) each assigned
word's length equals its slot's length and (b) for every ordered pair of
distinct assigned slots with a defined overlap the characters at the
overlap indices agree AND the two words differ; word-uniqueness is checked
only among overlapping pairs, not among all assigned slots. -/
theorem C2_consistent_iff (cw : Crossword) (a : Assignment)
    (_hkeys : ∀ p ∈ a, p.1 ∈ cw.vars) (_hnodup : (a.map (fun p => p.1)).Nodup) :
    consistent cw a = true ↔
      ((∀ p ∈ a, p.1.length = p.2.length) ∧
       ∀ p ∈ a, ∀ q ∈ a, p.1 ≠ q.1 →
         ∀ oi oj, cw.overlaps p.1 q.1 = some (oi, oj) →
           charAtD p.2 oi = charAtD q.2 oj ∧ p.2 ≠ q.2) :=
  consistent_iff cw a

/-- Witness for C2: the hypotheses hold for the concrete assignment `a2w`
on the crossing-slot crossword `cw2w`, and the characterization follows. -/
theorem C2_consistent_iff_witness :
    (∀ p ∈ a2w, p.1 ∈ cw2w.vars) ∧ ((a2w.map (fun p => p.1)).Nodup) ∧
      (consistent cw2w a2w = true ↔
        ((∀ p ∈ a2w, p.1.length = p.2.length) ∧
         ∀ p ∈ a2w, ∀ q ∈ a2w, p.1 ≠ q.1 →
           ∀ oi oj, cw2w.overlaps p.1 q.1 = some (oi, oj) →
             charAtD p.2 oi = charAtD q.2 oj ∧ p.2 ≠ q.2)) :=
  ⟨by decide, by decide, C2_consistent_iff cw2w a2w (by decide) (by decide)⟩

/-- C3: `revise` on a pair without an overlap returns False and changes
nothing, as claimed; but on the pair (X3, Y3) with overlap (0, 0), where
X3's word "ab" has no support in Y3's domain {"cd"}, `revise` raises
AttributeError — the removal line reads `self.domains.remove(word1)` and
the dict of domains has no `remove` attribute — instead of removing the
word and returning True. -/
theorem C3_revise_attribute_error :
    cw3.overlaps X3 Z3 = none ∧ revise cw3 d3 X3 Z3 = Except.ok (false, d3) ∧
      cw3.overlaps X3 Y3 = some (0, 0) ∧
      revise cw3 d3 X3 Y3 = Except.error PyErr.attributeError :=
  ⟨rfl, rfl, rfl, rfl⟩

/-- C4: on `cw4`, `ac3()` (default seeding) returns True and leaves the
domains untouched, yet the word "ab" remains in X4's domain although no
word of Y4's domain matches it at the (0, 1) overlap — arc consistency
does not hold after `ac3` succeeds, because the worklist loop guard
`while not q.empty:` tests the truthy bound-method object and the loop
body never runs. -/
theorem C4_ac3_leaves_unsupported :
    ac3 cw4 none d4 = Except.ok (true, d4) ∧
      cw4.overlaps X4 Y4 = some (0, 1) ∧ abW ∈ d4 X4 ∧
      (∀ v ∈ d4 Y4, charAtD abW 0 ≠ charAtD v 1) :=
  ⟨ac3_eq cw4 none d4, rfl, by decide, by decide⟩

/-- C5: for every crossword, every arcs argument (None or an explicit
list) and every domain store, `ac3` returns True with the domains exactly
as they were; and the worklist loop returns True with unchanged domains
for EVERY revision procedure `r`, any fuel and any queue — the loop body
never executes, so `revise` is never invoked. -/
theorem C5_ac3_noop :
    (∀ (cw : Crossword) (arcs : Option (List (Variable × Variable))) (d : Domains),
        ac3 cw arcs d = Except.ok (true, d)) ∧
    (∀ (cw : Crossword)
        (r : Domains → Variable → Variable → Except PyErr (Bool × Domains))
        (fuel : Nat) (q : List (Variable × Variable)) (d : Domains),
        ac3LoopWith cw r fuel q d = Except.ok (true, d)) :=
  ⟨ac3_eq, ac3LoopWith_eq⟩

/-- C6 counterexample: on `cw6` (vocabulary {cat}, two equal-length
non-crossing slots) no complete assignment over the vocabulary is
consistent per the §3 definition — both slots would need the only word,
violating global uniqueness — yet `solve` does NOT return the no-solution
value: it returns the duplicate assignment {X6 ↦ cat, Y6 ↦ cat}. -/
theorem C6_counterexample :
    (¬ ∃ a, SpecSolution cw6 a) ∧
      solve cw6 = Except.ok (some [(X6, catW), (Y6, catW)]) := by
  constructor
  · rintro ⟨a, hcomp, hcons⟩
    obtain ⟨w1, hg1, hw1⟩ := hcomp X6 (by decide)
    obtain ⟨w2, hg2, hw2⟩ := hcomp Y6 (by decide)
    have hwords : cw6.words = [catW] := rfl
    rw [hwords, List.mem_singleton] at hw1 hw2
    subst hw1
    subst hw2
    have hm1 := dictGet_mem a X6 catW hg1
    have hm2 := dictGet_mem a Y6 catW hg2
    exact (hcons.2.2 (X6, catW) hm1 (Y6, catW) hm2 (by decide)) rfl
  · rfl

/-- C6 (amended): if no complete assignment drawn from the vocabulary is
accepted by the code's `consistent` (lengths, overlaps, and uniqueness
among overlapping pairs only), then `solve` returns the no-solution
value.  With the §3 global-uniqueness reading the statement is false (see
the counterexample): a single-word vocabulary with two equal-length slots
yields no-solution only when the slots overlap. -/
theorem C6_solve_exhaustive (cw : Crossword) (h : ¬ ∃ a, CodeSolution cw a) :
    solve cw = Except.ok none := by
  cases hb : backtrack cw (nodeDomains cw) (cw.vars.length + 1) [] with
  | none => rw [solve_eq cw, hb]
  | some r =>
    exfalso
    apply h
    have hs : solve cw = Except.ok (some r) := by rw [solve_eq cw, hb]
    obtain ⟨hcomp, hcons, hgood⟩ := solve_sound_full cw r hs
    refine ⟨r, ?_, hcons⟩
    intro v hv
    obtain ⟨w, hget, hne⟩ :=
      (truthyGet_true_iff r v).mp (List.all_eq_true.mp hcomp v hv)
    exact ⟨w, hget,
      nodeDomains_subset cw v w (hgood (v, w) (dictGet_mem r v w hget)).2⟩

/-- Witness for C6: the one-slot crossword `cw6w` has no code-consistent
complete assignment (its only word is shorter than the slot), and `solve`
returns the no-solution value on it. -/
theorem C6_solve_exhaustive_witness :
    (¬ ∃ a, CodeSolution cw6w a) ∧ solve cw6w = Except.ok none := by
  have h : ¬ ∃ a, CodeSolution cw6w a := by
    rintro ⟨a, hcomp, hcons⟩
    obtain ⟨w, hget, hw⟩ := hcomp X6w (by decide)
    have hwords : cw6w.words = [abW] := rfl
    rw [hwords, List.mem_singleton] at hw
    subst hw
    have hlen := consistent_len cw6w a hcons (X6w, abW) (dictGet_mem a X6w abW hget)
    simp [X6w, abW] at hlen
  exact ⟨h, C6_solve_exhaustive cw6w h⟩

/-- C7: `solve` never short-circuits on the AC-3 result — for every
crossword it unconditionally proceeds to the backtracking search (the
source runs `self.ac3()` as a bare statement and discards the boolean).
Moreover `ac3` cannot report failure: on `cw7`, where every word of X7's
non-empty domain lacks support in Y7's domain (so an arc-consistency pass
must empty X7's domain and return False), `ac3` still returns True with
the domains unchanged. -/
theorem C7_solve_ignores_ac3 :
    (∀ cw : Crossword,
        solve cw = Except.ok (backtrack cw (nodeDomains cw) (cw.vars.length + 1) [])) ∧
      d7 X7 ≠ [] ∧ (∀ w ∈ d7 X7, ∀ v ∈ d7 Y7, charAtD w 0 ≠ charAtD v 1) ∧
      ac3 cw7 none d7 = Except.ok (true, d7) :=
  ⟨solve_eq, by decide, by decide, ac3_eq cw7 none d7⟩

/-- C8: `revise` on the crossing pair (X8, Y8) — overlap defined, and X8's
word "abc" lacks support in Y8's domain — does not return a boolean: it
raises AttributeError (`self.domains.remove(word1)` on the domains dict),
contradicting the value-returned failure policy. -/
theorem C8_revise_raises :
    cw8.overlaps X8 Y8 = some (0, 0) ∧ abcW ∈ d8 X8 ∧
      (∀ v ∈ d8 Y8, charAtD abcW 0 ≠ charAtD v 0) ∧
      revise cw8 d8 X8 Y8 = Except.error PyErr.attributeError :=
  ⟨rfl, by decide, by decide, rfl⟩

/-- C9: after `enforce_node_consistency`, each slot's domain is exactly the
previous domain filtered to the words of the slot's length: every
remaining word has the slot's length and was already present, and every
present word of matching length remains (domains only shrink, and no word
of matching length is lost). -/
theorem C9_node_consistency (cw : Crossword) (d : Domains) (v : Variable)
    (hv : v ∈ cw.vars) :
    enforce_node_consistency cw d v = (d v).filter (fun w => w.length == v.length) ∧
      (∀ w ∈ enforce_node_consistency cw d v, w.length = v.length ∧ w ∈ d v) ∧
      (∀ w ∈ d v, w.length = v.length → w ∈ enforce_node_consistency cw d v) := by
  have he := enc_eval cw d v hv
  refine ⟨he, ?_, ?_⟩
  · intro w hw
    rw [he] at hw
    exact ⟨by simpa using List.of_mem_filter hw, List.mem_of_mem_filter hw⟩
  · intro w hw hlen
    rw [he]
    exact List.mem_filter.mpr ⟨hw, by simpa using hlen⟩

/-- Witness for C9: on the one-slot crossword `cw9` with mixed-length
vocabulary {cat, ab}, node consistency filters X9's domain to the length-3
words. -/
theorem C9_node_consistency_witness :
    X9 ∈ cw9.vars ∧
      (enforce_node_consistency cw9 d9 X9 =
          (d9 X9).filter (fun w => w.length == X9.length) ∧
        (∀ w ∈ enforce_node_consistency cw9 d9 X9, w.length = X9.length ∧ w ∈ d9 X9) ∧
        (∀ w ∈ d9 X9, w.length = X9.length → w ∈ enforce_node_consistency cw9 d9 X9)) :=
  ⟨by decide, C9_node_consistency cw9 d9 X9 (by decide)⟩

/-- C10 counterexample: on `cw10` the assignment {X10 ↦ ""} has an entry
for every slot, yet `assignment_complete` returns False — the check tests
the truthiness of `assignment.get(i, 0)`, and an empty-string entry is
falsy — so "True iff every slot has an entry" fails. -/
theorem C10_counterexample :
    assignment_complete cw10 a10 = false ∧
      ∀ v ∈ cw10.vars, (dictGet a10 v).isSome = true := by decide

/-- C10 (amended): `assignment_complete` returns True iff every slot of
the crossword has an entry holding a NON-EMPTY word (truthiness of
`assignment.get(slot, 0)`). -/
theorem C10_complete_iff (cw : Crossword) (a : Assignment) :
    assignment_complete cw a = true ↔
      ∀ v ∈ cw.vars, ∃ w, dictGet a v = some w ∧ w ≠ [] := by
  unfold assignment_complete
  rw [List.all_eq_true]
  constructor
  · intro h v hv
    exact (truthyGet_true_iff a v).mp (h v hv)
  · intro h v hv
    exact (truthyGet_true_iff a v).mpr (h v hv)
